import Mathlib

/-!
Verification of the BOLT perf-data reader (`src/src/DataReader.h`).

The repository ships only the header.  Functions whose bodies appear inline
in the header (`Location::operator==`, `Location::operator<`,
`DataReader::usesEvent`, `DenseMapInfo<bolt::Location>::isEqual`) are
translated from that source.  Functions that the header only declares
(the line parser, the aggregation `bump` operations, `appendFrom`,
`getSamples`, and the LTO name resolver) are modelled from the
specification; each such definition says so in its doc comment.

Machine integers: `uint64_t` offsets are modelled as `Nat` and the
`int64_t` counters as `Int`; the profile format only ever adds
non-negative values to them and the spec states that overflow is not
checked and never expected, so no wrap-around is modelled.
-/

namespace BoltData

/-- `bolt::Location` from `DataReader.h`: a discriminator (symbol vs DSO),
a name and a byte offset. -/
structure Location where
  IsSymbol : Bool
  Name : String
  Offset : Nat
deriving DecidableEq

/-- Lexicographic order on `Bool` as C++ compares the underlying ints:
`false < true`. -/
def boolLt (a b : Bool) : Bool := !a && b

/-- Byte-lexicographic order on character lists, as `StringRef::operator<`
compares the underlying bytes. -/
def charsLt : List Char → List Char → Bool
  | _, [] => false
  | [], _ :: _ => true
  | a :: as, b :: bs => decide (a < b) || (a == b && charsLt as bs)

/-- `StringRef` ordering lifted to `String`. -/
def strLt (a b : String) : Bool := charsLt a.data b.data

/-- `Location::operator==` (DataReader.h:77-81): all three fields compared,
except that when the left name is `"[heap]"` the offsets are ignored. -/
def locEq (a b : Location) : Bool :=
  a.IsSymbol == b.IsSymbol && a.Name == b.Name &&
    (a.Name == "[heap]" || a.Offset == b.Offset)

/-- `Location::operator<` (DataReader.h:83-91): lexicographic on
(IsSymbol, Name, Offset), except that for name `"[heap]"` the offset
comparison is forced to `false`. -/
def locLt (a b : Location) : Bool :=
  if a.IsSymbol != b.IsSymbol then boolLt a.IsSymbol b.IsSymbol
  else if a.Name != b.Name then strLt a.Name b.Name
  else a.Name != "[heap]" && decide (a.Offset < b.Offset)

/-- Plain lexicographic comparison on the triple (IsSymbol, Name, Offset),
written from the spec's words ("lexicographic on (discriminator, name,
offset)") to compare against `locLt`. -/
def lexLocLt (a b : Location) : Bool :=
  boolLt a.IsSymbol b.IsSymbol ||
    (a.IsSymbol == b.IsSymbol &&
      (strLt a.Name b.Name ||
        (a.Name == b.Name && decide (a.Offset < b.Offset))))

/-- `DenseMapInfo<bolt::Location>::isEqual` (DataReader.h:471-475): all
three fields compared unconditionally, with no `"[heap]"` special case. -/
def denseMapIsEqual (a b : Location) : Bool :=
  a.IsSymbol == b.IsSymbol && a.Name == b.Name && a.Offset == b.Offset

/-- Key set of a DenseMap keyed by `Location` under `denseMapIsEqual`:
inserting a key adds a fresh entry unless an `isEqual` key is present. -/
def denseInsertKey (ks : List Location) (k : Location) : List Location :=
  if ks.any (fun x => denseMapIsEqual x k) then ks else ks ++ [k]

/-- First index at which `pat` occurs in `hay`, as `StringRef::find`
scans for the first occurrence of its argument (DataReader.h:402). -/
def strFind (pat : List Char) : List Char → Option Nat
  | [] => if pat.isPrefixOf ([] : List Char) then some 0 else none
  | c :: rest =>
    if pat.isPrefixOf (c :: rest) then some 0
    else (strFind pat rest).map (· + 1)

/-- `DataReader::usesEvent` (DataReader.h:399-406): scan the recorded
event names and return true when any of them contains `name` as a
substring (`Event.find(Name) != StringRef::npos`). -/
def usesEvent (eventNames : List String) (name : String) : Bool :=
  eventNames.any (fun event => (strFind name.data event.data).isSome)

/-! LTO name resolver.  Its implementation is absent from the repository
(only declared at DataReader.h:64), so it is modelled from the spec. -/

/-- Modelled from the spec: the two LTO suffix markers recognised by the
missing `getLTOCommonName` body, `".lto_priv."` and `".constprop."`. -/
def ltoMarkers : List (List Char) := [".lto_priv.".data, ".constprop.".data]

/-- Modelled from the spec: an LTO marker occurs at the head of `s` when
one of the markers is a prefix of `s` and is followed by a decimal digit
("followed by a decimal run"). -/
def markerAt (s : List Char) : Bool :=
  ltoMarkers.any (fun m =>
    m.isPrefixOf s &&
      (match s.drop m.length with
       | c :: _ => c.isDigit
       | [] => false))

/-- Modelled from the spec: index of the first LTO marker occurrence in a
name, scanning left to right. -/
def findMarker : List Char → Option Nat
  | [] => none
  | c :: rest =>
    if markerAt (c :: rest) then some 0 else (findMarker rest).map (· + 1)

/-- Modelled from the spec: the missing `getLTOCommonName` body — return
the prefix of the name up to (not including) the first marker, or `none`
when no marker is present. -/
def getLTOCommonName (s : String) : Option String :=
  (findMarker s.data).map (fun i => String.mk (s.data.take i))

/-- Modelled from the spec: reduce a name repeatedly ("reduce
repeatedly/transitively when building lookup keys") until no marker
remains, with explicit fuel. -/
def reduceLTOName : Nat → String → String
  | 0, s => s
  | fuel + 1, s =>
    match getLTOCommonName s with
    | some p => reduceLTOName fuel p
    | none => s

/-! Aggregation containers (DataReader.h:98-286).  The header declares the
record types in full; the bodies of the `bump`, `appendFrom` and
`getSamples` member functions are absent and are modelled from the spec. -/

/-- `bolt::BranchInfo` (DataReader.h:98-127): an aggregated edge with
cumulative mispredict and branch counts. -/
structure BranchInfo where
  From : Location
  To : Location
  Mispreds : Int
  Branches : Int
deriving DecidableEq

/-- `bolt::FuncBranchData` (DataReader.h:129-174).  `IntraIndex` maps a
(from-offset, to-offset) pair to a position in `Data`, kept as an
association list. -/
structure FuncBranchData where
  Name : String
  Data : List BranchInfo
  EntryData : List BranchInfo := []
  ExecutionCount : Int := 0
  Used : Bool := false
  IntraIndex : List ((Nat × Nat) × Nat) := []
deriving DecidableEq

/-- Association-list lookup of a (from, to) offset pair in `IntraIndex`. -/
def findIntra (f t : Nat) : List ((Nat × Nat) × Nat) → Option Nat
  | [] => none
  | ((a, b), i) :: rest => if a == f && b == t then some i else findIntra f t rest

/-- Modelled from the spec: the missing `FuncBranchData::bumpBranchCount`
body — locate or create the intra-function BranchInfo for the (from, to)
pair via IntraIndex, increment the branch count by 1 and the mispredict
count by 1 when the flag is set. -/
def FuncBranchData.bumpBranchCount (d : FuncBranchData) (f t : Nat) (m : Bool) :
    FuncBranchData :=
  match findIntra f t d.IntraIndex with
  | some i =>
    match d.Data[i]? with
    | some bi =>
      let bi' : BranchInfo :=
        { bi with Branches := bi.Branches + 1,
                  Mispreds := bi.Mispreds + (if m then 1 else 0) }
      { d with Data := d.Data.set i bi' }
    | none => d
  | none =>
    { d with
        Data := d.Data ++
          [⟨⟨true, d.Name, f⟩, ⟨true, d.Name, t⟩, if m then 1 else 0, 1⟩],
        IntraIndex := d.IntraIndex ++ [((f, t), d.Data.length)] }

/-- Shift both offsets of a record by `k`, keeping the count fields. -/
def shiftBranchInfo (k : Nat) (bi : BranchInfo) : BranchInfo :=
  { bi with
      From := { bi.From with Offset := bi.From.Offset + k },
      To := { bi.To with Offset := bi.To.Offset + k } }

/-- Modelled from the spec: the missing `FuncBranchData::appendFrom` body
— splice the other function's records into this one, shifting every
offset in the appended records by `k`. -/
def FuncBranchData.appendFrom (d other : FuncBranchData) (k : Nat) :
    FuncBranchData :=
  { d with
      Data := d.Data ++ other.Data.map (shiftBranchInfo k),
      EntryData := d.EntryData ++ other.EntryData.map (shiftBranchInfo k) }

/-- `bolt::SampleInfo` (DataReader.h:245-266): a sampled location and its
hit count. -/
structure SampleInfo where
  Loc : Location
  Hits : Int
deriving DecidableEq

/-- `bolt::FuncSampleData` (DataReader.h:270-286). -/
structure FuncSampleData where
  Name : String
  Data : List SampleInfo
deriving DecidableEq

/-- First position whose offset is not below `x`; on a sorted list this is
the `std::lower_bound` position used by `getSamples`. -/
def lowerBound (x : Nat) : List SampleInfo → Nat
  | [] => 0
  | s :: rest => if s.Loc.Offset < x then lowerBound x rest + 1 else 0

/-- Modelled from the spec: the missing `FuncSampleData::getSamples` body
— sum the hit counts between the lower-bound positions of `start` and
`stop`, "computed in sorted order". -/
def FuncSampleData.getSamples (d : FuncSampleData) (start stop : Nat) : Int :=
  (((d.Data.drop (lowerBound start d.Data)).take
      (lowerBound stop d.Data - lowerBound start d.Data)).map
    (fun s => s.Hits)).sum

/-- Find the sample with the given offset and add `count` to its hits;
`none` when no such sample exists. -/
def bumpSamples (offset : Nat) (count : Int) : List SampleInfo →
    Option (List SampleInfo)
  | [] => none
  | si :: rest =>
    if si.Loc.Offset == offset then
      some ({ si with Hits := si.Hits + count } :: rest)
    else (bumpSamples offset count rest).map (si :: ·)

/-- Modelled from the spec: the missing `FuncSampleData::bumpCount` body —
find-or-create the SampleInfo keyed by offset and merge the per-line
count additively (spec §9 resolves the open question this way). -/
def FuncSampleData.bumpCount (d : FuncSampleData) (offset : Nat) (count : Int) :
    FuncSampleData :=
  match bumpSamples offset count d.Data with
  | some l => { d with Data := l }
  | none => { d with Data := d.Data ++ [⟨⟨true, d.Name, offset⟩, count⟩] }

/-- `bolt::MemInfo` (DataReader.h:179-212). -/
structure MemInfo where
  Offset : Location
  Addr : Location
  Count : Nat
deriving DecidableEq

/-- `bolt::FuncMemData` (DataReader.h:217-240). -/
structure FuncMemData where
  Name : String
  Data : List MemInfo
  Used : Bool := false
deriving DecidableEq

/-! Profile store and fuzzy lookup.  The store is a name-keyed map kept in
insertion order; the regex-lookup bodies are absent from the repository
and modelled from the spec. -/

/-- Exact-name lookup in a name-keyed store. -/
def lookupStore {α : Type} (store : List (String × α)) (n : String) : Option α :=
  (store.find? (fun p => p.1 == n)).map (fun p => p.2)

/-- Modelled from the spec: the bucket built by the missing
`buildLTONameMaps` body — all records whose name reduces to the common
name `cn`, in store order. -/
def ltoBucket {α : Type} (store : List (String × α)) (cn : String) : List α :=
  store.filterMap (fun p => if getLTOCommonName p.1 == some cn then some p.2 else none)

/-- Modelled from the spec: the missing `getFuncBranchDataRegex` /
`getFuncMemDataRegex` bodies — if any candidate name matches the store
exactly, return that record as the sole result; otherwise return the
union over all candidates of the LTO common-name bucket of each
candidate's reduced name. -/
def regexQuery {α : Type} (store : List (String × α)) (names : List String) :
    List α :=
  match names.findSome? (lookupStore store) with
  | some d => [d]
  | none =>
    (names.map (fun n =>
      match getLTOCommonName n with
      | some cn => ltoBucket store cn
      | none => [])).flatten

/-- `DataReader::getFuncBranchDataRegex` (declared at DataReader.h:368),
instantiating the modelled fuzzy lookup at branch data. -/
def getFuncBranchDataRegex (store : List (String × FuncBranchData))
    (names : List String) : List FuncBranchData :=
  regexQuery store names

/-- `DataReader::getFuncMemDataRegex` (declared at DataReader.h:374),
instantiating the modelled fuzzy lookup at memory data. -/
def getFuncMemDataRegex (store : List (String × FuncMemData))
    (names : List String) : List FuncMemData :=
  regexQuery store names

/-! Line parser (DataReader.h:303-352, 415-431).  The header documents the
grammar and declares the primitives; their bodies are absent from the
repository and are modelled from the spec (§4.2, §6).  The branch-record
context sub-blocks of the LBR grammar are not exercised by any claim and
are left out of the model.  The diagnostic sink is modelled by returning
the reported `{line, column, message}` triple as the error value; the
failing first line reports line 1 per the spec. -/

/-- Parser position: the unconsumed input and the current line/column. -/
structure ParserState where
  buf : List Char
  line : Nat
  col : Nat
deriving DecidableEq

/-- A diagnostic written to the sink by `reportError`. -/
structure ParseError where
  line : Nat
  col : Nat
  msg : String
deriving DecidableEq

/-- Split a character list at the first character satisfying `p`; the
second component starts with that character when one exists. -/
def takeUntil (p : Char → Bool) : List Char → List Char × List Char
  | [] => ([], [])
  | c :: rest =>
    if p c then ([], c :: rest)
    else
      let (a, b) := takeUntil p rest
      (c :: a, b)

/-- Modelled from the spec: the missing `parseString` body — consume
characters up to `endChar` (or up to end of line when `endNl`), failing
when `endChar` is not found before a newline or end of input.  A newline
terminator accepted via `endNl` is not consumed. -/
def parseString (endChar : Char) (endNl : Bool) (st : ParserState) :
    Except ParseError (List Char × ParserState) :=
  let (field, rest) := takeUntil (fun c => c == endChar || c == '\n') st.buf
  match rest with
  | [] => .error ⟨st.line, st.col + field.length, "malformed field"⟩
  | t :: rest' =>
    if t == endChar then
      if t == '\n' then .ok (field, ⟨rest', st.line + 1, 1⟩)
      else .ok (field, ⟨rest', st.line, st.col + field.length + 1⟩)
    else if endNl then .ok (field, ⟨t :: rest', st.line, st.col + field.length⟩)
    else .error ⟨st.line, st.col + field.length, "malformed field"⟩

/-- Value of a decimal digit string. -/
def decDigitsToNat (l : List Char) : Nat :=
  l.foldl (fun a c => a * 10 + (c.toNat - 48)) 0

/-- Hexadecimal digit test matching the `[0-9a-fA-F]` field alphabet. -/
def isHexDigit (c : Char) : Bool :=
  c.isDigit || (decide ('a' ≤ c) && decide (c ≤ 'f')) ||
    (decide ('A' ≤ c) && decide (c ≤ 'F'))

/-- Value of one hexadecimal digit. -/
def hexDigitToNat (c : Char) : Nat :=
  if c.isDigit then c.toNat - 48
  else if decide ('a' ≤ c) && decide (c ≤ 'f') then c.toNat - 87
  else c.toNat - 55

/-- Value of a hexadecimal digit string. -/
def hexDigitsToNat (l : List Char) : Nat :=
  l.foldl (fun a c => a * 16 + hexDigitToNat c) 0

/-- Modelled from the spec: the missing `parseNumberField` body — a field
terminated by `endChar`, parsed as a base-10 integer, failing on empty or
non-digit content. -/
def parseNumberField (endChar : Char) (endNl : Bool) (st : ParserState) :
    Except ParseError (Int × ParserState) :=
  match parseString endChar endNl st with
  | .error e => .error e
  | .ok (field, st') =>
    if !field.isEmpty && field.all Char.isDigit then
      .ok ((decDigitsToNat field : Nat), st')
    else .error ⟨st.line, st.col, "expected decimal number"⟩

/-- Modelled from the spec: the missing `parseHexField` body — a field
terminated by `endChar`, parsed as a base-16 offset. -/
def parseHexField (endChar : Char) (endNl : Bool) (st : ParserState) :
    Except ParseError (Nat × ParserState) :=
  match parseString endChar endNl st with
  | .error e => .error e
  | .ok (field, st') =>
    if !field.isEmpty && field.all isHexDigit then
      .ok (hexDigitsToNat field, st')
    else .error ⟨st.line, st.col, "expected hexadecimal number"⟩

/-- Modelled from the spec: the missing `parseLocation` body — the triple
`<is-symbol:0|1> <name> <hex offset>`, the last field terminated by
`endChar`. -/
def parseLocation (endChar : Char) (endNl : Bool) (st : ParserState) :
    Except ParseError (Location × ParserState) := do
  let (sym, st1) ← parseNumberField ' ' false st
  let (name, st2) ← parseString ' ' false st1
  let (off, st3) ← parseHexField endChar endNl st2
  return (⟨sym == 1, String.mk name, off⟩, st3)

/-- Modelled from the spec: the missing `parseSampleInfo` body — one
no-LBR record `<is-symbol> <name> <offset> <count>` ending at the
newline. -/
def parseSampleInfo (st : ParserState) :
    Except ParseError (SampleInfo × ParserState) := do
  let (loc, st1) ← parseLocation ' ' false st
  let (cnt, st2) ← parseNumberField '\n' false st1
  return (⟨loc, cnt⟩, st2)

/-- Modelled from the spec: the missing `parseBranchInfo` body — one LBR
record: two locations, a mispredict count and a branch count on one line
(context sub-records omitted, see the section comment). -/
def parseBranchInfo (st : ParserState) :
    Except ParseError (BranchInfo × ParserState) := do
  let (locFrom, st1) ← parseLocation ' ' false st
  let (locTo, st2) ← parseLocation ' ' false st1
  let (mispreds, st3) ← parseNumberField ' ' false st2
  let (branches, st4) ← parseNumberField '\n' false st3
  return (⟨locFrom, locTo, mispreds, branches⟩, st4)

/-- The first-line marker that switches the file to the no-LBR grammar. -/
def noLBRMarker : List Char := "no_lbr\n".data

/-- Modelled from the spec: the missing `maybeParseNoLBRFlag` body — peek
the first line for the marker, consuming it when present. -/
def maybeParseNoLBRFlag (st : ParserState) : Bool × ParserState :=
  if noLBRMarker.isPrefixOf st.buf then
    (true, ⟨st.buf.drop noLBRMarker.length, st.line + 1, 1⟩)
  else (false, st)

/-- Modelled from the spec: routing of a parsed flat-sample record into
the profile store — find-or-create the `FuncSampleData` keyed by the
record's name and merge the count via `bumpCount`. -/
def storeSample : List (String × FuncSampleData) → SampleInfo →
    List (String × FuncSampleData)
  | [], si =>
    [(si.Loc.Name, FuncSampleData.bumpCount ⟨si.Loc.Name, []⟩ si.Loc.Offset si.Hits)]
  | (n, d) :: rest, si =>
    if n == si.Loc.Name then (n, d.bumpCount si.Loc.Offset si.Hits) :: rest
    else (n, d) :: storeSample rest si

/-- Modelled from the spec: the record loop of `parseInNoLBRMode` — parse
records until the buffer is empty, committing each one; any primitive
failure aborts the whole pass.  Fuel bounds the recursion and exceeds the
input length at every call site. -/
def sampleLoop : Nat → List (String × FuncSampleData) → ParserState →
    Except ParseError (List (String × FuncSampleData))
  | 0, _, st => .error ⟨st.line, st.col, "fuel exhausted"⟩
  | fuel + 1, store, st =>
    if st.buf.isEmpty then .ok store
    else
      match parseSampleInfo st with
      | .error e => .error e
      | .ok (si, st') => sampleLoop fuel (storeSample store si) st'

/-- Modelled from the spec: the missing `parseInNoLBRMode` body — consume
the no-LBR marker line, then fold every flat-sample record into the
store. -/
def parseInNoLBRMode (input : String) :
    Except ParseError (List (String × FuncSampleData)) :=
  let st0 : ParserState := ⟨input.data, 1, 1⟩
  let (_, st1) := maybeParseNoLBRFlag st0
  sampleLoop (st1.buf.length + 1) [] st1

/-- Merge a parsed record into a record list keyed by (From, To) under
`operator==`; `none` when no record with that key exists. -/
def bumpBranchList (bi : BranchInfo) : List BranchInfo →
    Option (List BranchInfo)
  | [] => none
  | x :: rest =>
    if locEq x.From bi.From && locEq x.To bi.To then
      some ({ x with Mispreds := x.Mispreds + bi.Mispreds,
                     Branches := x.Branches + bi.Branches } :: rest)
    else (bumpBranchList bi rest).map (x :: ·)

/-- Modelled from the spec: routing of a parsed branch record into the
profile store — find-or-create the `FuncBranchData` keyed by the source
name and merge duplicate edges additively. -/
def storeBranch : List (String × FuncBranchData) → BranchInfo →
    List (String × FuncBranchData)
  | [], bi => [(bi.From.Name, { Name := bi.From.Name, Data := [bi] })]
  | (n, d) :: rest, bi =>
    if n == bi.From.Name then
      match bumpBranchList bi d.Data with
      | some l => (n, { d with Data := l }) :: rest
      | none => (n, { d with Data := d.Data ++ [bi] }) :: rest
    else (n, d) :: storeBranch rest bi

/-- Modelled from the spec: the record loop of `parse` — parse LBR records
until the buffer is empty, committing each one; any primitive failure
aborts the whole pass at the point of first failure, committing nothing
for the failing line. -/
def branchLoop : Nat → List (String × FuncBranchData) → ParserState →
    Except ParseError (List (String × FuncBranchData))
  | 0, _, st => .error ⟨st.line, st.col, "fuel exhausted"⟩
  | fuel + 1, store, st =>
    if st.buf.isEmpty then .ok store
    else
      match parseBranchInfo st with
      | .error e => .error e
      | .ok (bi, st') => branchLoop fuel (storeBranch store bi) st'

/-- Modelled from the spec: the missing `DataReader::parse` body for the
LBR grammar, starting at line 1, column 1. -/
def parse (input : String) :
    Except ParseError (List (String × FuncBranchData)) :=
  branchLoop (input.data.length + 1) [] ⟨input.data, 1, 1⟩

/-- Total branch count of a record list. -/
def totalBranches (l : List BranchInfo) : Int :=
  (l.map (fun bi => bi.Branches)).sum

/-- Total mispredict count of a record list. -/
def totalMispreds (l : List BranchInfo) : Int :=
  (l.map (fun bi => bi.Mispreds)).sum

/-! Theorems. -/

theorem charsLt_self (l : List Char) : charsLt l l = false := by
  induction l with
  | nil => rfl
  | cons c rest ih => simp [charsLt, ih]

/-- C1: two Locations named `"[heap]"` with equal IsSymbol compare equal
under `operator==` and unordered under `operator<` regardless of offsets;
away from `"[heap]"` both operators are plain lexicographic comparison on
(IsSymbol, Name, Offset). -/
theorem location_heap_collapses_and_order_lex (a b : Location) :
    (a.Name = "[heap]" → b.Name = "[heap]" → a.IsSymbol = b.IsSymbol →
      locEq a b = true ∧ locLt a b = false ∧ locLt b a = false) ∧
    (a.Name ≠ "[heap]" → b.Name ≠ "[heap]" →
      locEq a b = (a.IsSymbol == b.IsSymbol && a.Name == b.Name &&
        a.Offset == b.Offset) ∧
      locLt a b = lexLocLt a b) := by
  obtain ⟨s, n, o⟩ := a
  obtain ⟨s', n', o'⟩ := b
  constructor
  · rintro rfl rfl rfl
    refine ⟨by simp [locEq], by simp [locLt], by simp [locLt]⟩
  · intro h1 h2
    have hn1 : (n == "[heap]") = false := beq_eq_false_iff_ne.mpr h1
    constructor
    · simp [locEq, hn1]
    · by_cases hs : s = s'
      · subst hs
        by_cases hn : n = n'
        · subst hn
          simp [locLt, lexLocLt, boolLt, charsLt_self, strLt, hn1, bne]
        · have hnb : (n == n') = false := beq_eq_false_iff_ne.mpr hn
          simp [locLt, lexLocLt, boolLt, hnb, bne]
      · have hsb : (s == s') = false := beq_eq_false_iff_ne.mpr hs
        simp [locLt, lexLocLt, hsb, bne]

theorem location_heap_collapses_and_order_lex_witness :
    (locEq ⟨true, "[heap]", 1⟩ ⟨true, "[heap]", 2⟩ = true ∧
      locLt ⟨true, "[heap]", 1⟩ ⟨true, "[heap]", 2⟩ = false ∧
      locLt ⟨true, "[heap]", 2⟩ ⟨true, "[heap]", 1⟩ = false) ∧
    (locEq ⟨true, "alpha", 1⟩ ⟨true, "beta", 2⟩ =
        ((true : Bool) == true && "alpha" == "beta" && (1 : Nat) == 2) ∧
      locLt ⟨true, "alpha", 1⟩ ⟨true, "beta", 2⟩ =
        lexLocLt ⟨true, "alpha", 1⟩ ⟨true, "beta", 2⟩) :=
  ⟨(location_heap_collapses_and_order_lex ⟨true, "[heap]", 1⟩
      ⟨true, "[heap]", 2⟩).1 rfl rfl rfl,
    (location_heap_collapses_and_order_lex ⟨true, "alpha", 1⟩
      ⟨true, "beta", 2⟩).2 (by decide) (by decide)⟩

theorem strFind_isSome (pat hay : List Char) :
    (strFind pat hay).isSome = true ↔
      ∃ pre post, hay = pre ++ pat ++ post := by
  induction hay with
  | nil =>
    cases pat with
    | nil => exact ⟨fun _ => ⟨[], [], rfl⟩, fun _ => rfl⟩
    | cons c cs => simp [strFind, List.isPrefixOf]
  | cons c rest ih =>
    by_cases hp : List.isPrefixOf pat (c :: rest) = true
    · obtain ⟨t, ht⟩ := List.isPrefixOf_iff_prefix.mp hp
      exact ⟨fun _ => ⟨[], t, by simp [← ht]⟩, fun _ => by simp [strFind, hp]⟩
    · have hfalse : List.isPrefixOf pat (c :: rest) = false :=
        eq_false_of_ne_true hp
      have hmap : (strFind pat (c :: rest)).isSome =
          (strFind pat rest).isSome := by
        simp [strFind, hfalse]
      rw [hmap, ih]
      constructor
      · rintro ⟨pre, post, h⟩
        exact ⟨c :: pre, post, by simp [h]⟩
      · rintro ⟨pre, post, h⟩
        cases pre with
        | nil =>
          exfalso
          apply hp
          exact List.isPrefixOf_iff_prefix.mpr ⟨post, by simpa using h.symm⟩
        | cons x xs =>
          simp only [List.cons_append, List.cons.injEq] at h
          exact ⟨xs, post, h.2⟩

/-- C9: `usesEvent` returns true exactly when some recorded event name
contains the query as a substring, and returns false on an empty
event-name set. -/
theorem usesEvent_iff_substring (eventNames : List String) (name : String) :
    (usesEvent eventNames name = true ↔
      ∃ e ∈ eventNames, ∃ pre post, e.data = pre ++ name.data ++ post) ∧
    usesEvent [] name = false := by
  constructor
  · simp [usesEvent, List.any_eq_true, strFind_isSome]
  · rfl

/-- C10: the DenseMap key predicate `isEqual` compares all three Location
fields unconditionally, so the two `"[heap]"` locations with offsets 1
and 2 are equal under `operator==` yet distinct as hash-map keys and
occupy two separate entries. -/
theorem denseMapIsEqual_no_heap_case :
    (∀ a b : Location, denseMapIsEqual a b = true ↔
      a.IsSymbol = b.IsSymbol ∧ a.Name = b.Name ∧ a.Offset = b.Offset) ∧
    locEq ⟨true, "[heap]", 1⟩ ⟨true, "[heap]", 2⟩ = true ∧
    denseMapIsEqual ⟨true, "[heap]", 1⟩ ⟨true, "[heap]", 2⟩ = false ∧
    (denseInsertKey (denseInsertKey [] ⟨true, "[heap]", 1⟩)
        ⟨true, "[heap]", 2⟩).length = 2 := by
  refine ⟨fun a b => ?_, by decide, by decide, by decide⟩
  simp [denseMapIsEqual, Bool.and_eq_true, beq_iff_eq, and_assoc]

/-- C2: the no-LBR parse of two flat-sample lines for `main` at the same
offset yields a single store entry whose one SampleInfo sits at offset
0x10 with the per-line counts 5 and 3 merged additively into 8. -/
theorem parseInNoLBRMode_merges_additively :
    parseInNoLBRMode "no_lbr\n1 main 10 5\n1 main 10 3\n" =
      .ok [("main", ⟨"main", [⟨⟨true, "main", 16⟩, 8⟩]⟩)] := by rfl

theorem findIntra_mem {f t : Nat} {l : List ((Nat × Nat) × Nat)} {i : Nat}
    (h : findIntra f t l = some i) : ((f, t), i) ∈ l := by
  induction l with
  | nil => simp [findIntra] at h
  | cons p rest ih =>
    obtain ⟨⟨a, b⟩, j⟩ := p
    simp only [findIntra] at h
    split at h
    · rename_i hc
      obtain ⟨ha, hb⟩ := Bool.and_eq_true_iff.mp hc
      obtain rfl := beq_iff_eq.mp ha
      obtain rfl := beq_iff_eq.mp hb
      obtain rfl := Option.some.inj h
      exact List.mem_cons_self _ _
    · exact List.mem_cons_of_mem _ (ih h)

theorem totalBranches_set {l : List BranchInfo} {i : Nat} {bi : BranchInfo}
    (bi' : BranchInfo) (h : l[i]? = some bi) :
    totalBranches (l.set i bi') =
      totalBranches l - bi.Branches + bi'.Branches := by
  induction l generalizing i with
  | nil => simp at h
  | cons x rest ih =>
    cases i with
    | zero =>
      obtain rfl : x = bi := by simpa using h
      simp [totalBranches]
      ring
    | succ i' =>
      have h' : rest[i']? = some bi := by simpa using h
      simp [totalBranches, List.set] at ih ⊢
      rw [ih h']
      ring

theorem totalMispreds_set {l : List BranchInfo} {i : Nat} {bi : BranchInfo}
    (bi' : BranchInfo) (h : l[i]? = some bi) :
    totalMispreds (l.set i bi') =
      totalMispreds l - bi.Mispreds + bi'.Mispreds := by
  induction l generalizing i with
  | nil => simp at h
  | cons x rest ih =>
    cases i with
    | zero =>
      obtain rfl : x = bi := by simpa using h
      simp [totalMispreds]
      ring
    | succ i' =>
      have h' : rest[i']? = some bi := by simpa using h
      simp [totalMispreds, List.set] at ih ⊢
      rw [ih h']
      ring

/-- C3: whenever every IntraIndex position is in range, one `bump` adds
exactly 1 to the aggregate branch count and adds 1 to the aggregate
mispredict count only when the flag is set; the concrete triple bump on
(0x10, 0x20) leaves one record with Branches 3 and Mispreds 1. -/
theorem bumpBranchCount_increments (d : FuncBranchData) (f t : Nat) (m : Bool)
    (hwf : ∀ p i, (p, i) ∈ d.IntraIndex → i < d.Data.length) :
    totalBranches (d.bumpBranchCount f t m).Data = totalBranches d.Data + 1 ∧
    totalMispreds (d.bumpBranchCount f t m).Data =
      totalMispreds d.Data + (if m then 1 else 0) ∧
    ((((⟨"f", [], [], 0, false, []⟩ : FuncBranchData).bumpBranchCount
        16 32 false).bumpBranchCount 16 32 false).bumpBranchCount
        16 32 true).Data =
      [⟨⟨true, "f", 16⟩, ⟨true, "f", 32⟩, 1, 3⟩] := by
  refine ⟨?_, ?_, by rfl⟩ <;>
  · unfold FuncBranchData.bumpBranchCount
    cases hfi : findIntra f t d.IntraIndex with
    | none =>
      simp [totalBranches, totalMispreds]
    | some i =>
      have hi : i < d.Data.length := hwf (f, t) i (findIntra_mem hfi)
      cases hbi : d.Data[i]? with
      | none =>
        rw [List.getElem?_eq_none_iff] at hbi
        omega
      | some bi =>
        simp only [hbi]
        first
        | rw [totalBranches_set _ hbi]
        | rw [totalMispreds_set _ hbi]
        cases m <;> simp <;> ring

theorem bumpBranchCount_increments_witness :
    totalBranches ((⟨"g", [], [], 0, false, []⟩ :
        FuncBranchData).bumpBranchCount 1 2 true).Data =
      totalBranches ([] : List BranchInfo) + 1 :=
  (bumpBranchCount_increments ⟨"g", [], [], 0, false, []⟩ 1 2 true
    (by simp)).1

theorem findMarker_of_first {s : List Char} {i : Nat}
    (h1 : markerAt (s.drop i) = true)
    (h2 : ∀ j, j < i → markerAt (s.drop j) = false) :
    findMarker s = some i := by
  induction s generalizing i with
  | nil =>
    rw [List.drop_nil] at h1
    exact absurd h1 (by decide)
  | cons c rest ih =>
    cases i with
    | zero => simp only [List.drop_zero] at h1; simp [findMarker, h1]
    | succ i' =>
      have h0 : markerAt (c :: rest) = false := by simpa using h2 0 (by omega)
      have h1' : markerAt (rest.drop i') = true := by simpa using h1
      have h2' : ∀ j, j < i' → markerAt (rest.drop j) = false := fun j hj => by
        simpa using h2 (j + 1) (by omega)
      simp [findMarker, h0, ih h1' h2']

theorem findMarker_none_of_no_marker {s : List Char}
    (h : ∀ j, j < s.length → markerAt (s.drop j) = false) :
    findMarker s = none := by
  induction s with
  | nil => rfl
  | cons c rest ih =>
    have h0 : markerAt (c :: rest) = false := by simpa using h 0 (by simp)
    have hrest : findMarker rest = none :=
      ih (fun j hj => by simpa using h (j + 1) (by simp; omega))
    simp [findMarker, h0, hrest]

/-- C4: `getLTOCommonName` returns the prefix of the name before the
first `.lto_priv.<digit>` / `.constprop.<digit>` marker when one exists,
`none` when none occurs within the name, and repeated reduction takes
`"foo.lto_priv.1.lto_priv.2"` to `"foo"`. -/
theorem getLTOCommonName_first_marker :
    (∀ (s : String) (i : Nat), markerAt (s.data.drop i) = true →
      (∀ j, j < i → markerAt (s.data.drop j) = false) →
      getLTOCommonName s = some (String.mk (s.data.take i))) ∧
    (∀ s : String, (∀ j, j < s.data.length → markerAt (s.data.drop j) = false) →
      getLTOCommonName s = none) ∧
    getLTOCommonName "foo.lto_priv.123" = some "foo" ∧
    getLTOCommonName "foo" = none ∧
    reduceLTOName 2 "foo.lto_priv.1.lto_priv.2" = "foo" := by
  refine ⟨?_, ?_, rfl, rfl, rfl⟩
  · intro s i h1 h2
    simp [getLTOCommonName, findMarker_of_first h1 h2]
  · intro s h
    simp [getLTOCommonName, findMarker_none_of_no_marker h]

theorem getLTOCommonName_first_marker_witness :
    getLTOCommonName "a.constprop.7" =
      some (String.mk ("a.constprop.7".data.take 1)) ∧
    getLTOCommonName "bar" = none :=
  ⟨getLTOCommonName_first_marker.1 "a.constprop.7" 1 (by decide) (by decide),
    getLTOCommonName_first_marker.2.1 "bar" (by decide)⟩

theorem findSome?_isSome_of_mem {α β : Type} (f : α → Option β) {l : List α}
    {a : α} (ha : a ∈ l) (hf : (f a).isSome = true) :
    (l.findSome? f).isSome = true := by
  induction l with
  | nil => simp at ha
  | cons x rest ih =>
    rw [List.findSome?_cons]
    cases hfx : f x with
    | some b => simp
    | none =>
      rcases List.mem_cons.mp ha with rfl | hmem
      · rw [hfx] at hf
        simp at hf
      · exact ih hmem

theorem regexQuery_exact {α : Type} (store : List (String × α))
    (names : List String)
    (h : ∃ n ∈ names, (lookupStore store n).isSome = true) :
    ∃ n ∈ names, ∃ d, lookupStore store n = some d ∧
      regexQuery store names = [d] := by
  induction names with
  | nil => simp at h
  | cons m rest ih =>
    cases hm : lookupStore store m with
    | some d =>
      refine ⟨m, by simp, d, hm, ?_⟩
      simp [regexQuery, List.findSome?_cons, hm]
    | none =>
      obtain ⟨n, hn, hsome⟩ := h
      rcases List.mem_cons.mp hn with rfl | hmem
      · rw [hm] at hsome
        simp at hsome
      · obtain ⟨n', hn', d, hd, heq⟩ := ih ⟨n, hmem, hsome⟩
        have hs : (rest.findSome? (lookupStore store)).isSome = true :=
          findSome?_isSome_of_mem _ hn' (by simp [hd])
        cases hfs : rest.findSome? (lookupStore store) with
        | none =>
          rw [hfs] at hs
          simp at hs
        | some d0 =>
          have hr : regexQuery store rest = [d0] := by
            simp [regexQuery, hfs]
          have hd0 : d0 = d := by
            rw [hr] at heq
            simpa using heq
          refine ⟨n', List.mem_cons_of_mem _ hn', d, hd, ?_⟩
          simp [regexQuery, List.findSome?_cons, hm, hfs, hd0]

theorem regexQuery_no_exact {α : Type} (store : List (String × α))
    (names : List String) (h : ∀ n ∈ names, lookupStore store n = none) :
    regexQuery store names =
      (names.map (fun n =>
        match getLTOCommonName n with
        | some cn => ltoBucket store cn
        | none => [])).flatten := by
  have hnone : names.findSome? (lookupStore store) = none :=
    List.findSome?_eq_none_iff.mpr h
  simp [regexQuery, hnone]

/-- C5: for both `getFuncBranchDataRegex` and `getFuncMemDataRegex`, an
exact candidate match is returned as the sole result; with no exact
match, the result is the union over all candidates of the common-name
buckets, so querying `foo.lto_priv.9` against a store holding only
`foo.lto_priv.3` and `foo.lto_priv.7` returns both records. -/
theorem getFuncDataRegex_exact_else_bucket :
    (∀ (store : List (String × FuncBranchData)) (names : List String),
      (∃ n ∈ names, (lookupStore store n).isSome = true) →
      ∃ n ∈ names, ∃ d, lookupStore store n = some d ∧
        getFuncBranchDataRegex store names = [d]) ∧
    (∀ (store : List (String × FuncBranchData)) (names : List String),
      (∀ n ∈ names, lookupStore store n = none) →
      getFuncBranchDataRegex store names =
        (names.map (fun n =>
          match getLTOCommonName n with
          | some cn => ltoBucket store cn
          | none => [])).flatten) ∧
    (∀ (store : List (String × FuncMemData)) (names : List String),
      (∃ n ∈ names, (lookupStore store n).isSome = true) →
      ∃ n ∈ names, ∃ d, lookupStore store n = some d ∧
        getFuncMemDataRegex store names = [d]) ∧
    (∀ (store : List (String × FuncMemData)) (names : List String),
      (∀ n ∈ names, lookupStore store n = none) →
      getFuncMemDataRegex store names =
        (names.map (fun n =>
          match getLTOCommonName n with
          | some cn => ltoBucket store cn
          | none => [])).flatten) ∧
    getFuncBranchDataRegex
      [("foo.lto_priv.3", ⟨"foo.lto_priv.3", [], [], 0, false, []⟩),
       ("foo.lto_priv.7", ⟨"foo.lto_priv.7", [], [], 0, false, []⟩)]
      ["foo.lto_priv.9"] =
      [⟨"foo.lto_priv.3", [], [], 0, false, []⟩,
       ⟨"foo.lto_priv.7", [], [], 0, false, []⟩] :=
  ⟨regexQuery_exact, regexQuery_no_exact, regexQuery_exact,
    regexQuery_no_exact, by rfl⟩

theorem getFuncDataRegex_exact_else_bucket_witness :
    ∃ n ∈ ["f1"], ∃ d,
      lookupStore [("f1", (⟨"f1", [], [], 0, false, []⟩ : FuncBranchData))] n =
        some d ∧
      getFuncBranchDataRegex
        [("f1", ⟨"f1", [], [], 0, false, []⟩)] ["f1"] = [d] :=
  getFuncDataRegex_exact_else_bucket.1 _ _ ⟨"f1", by simp, by rfl⟩

/-- C6: the malformed line `"1 main\n"` (missing offset field) makes
`parse` fail with a diagnostic carrying line 1, and in general a failure
of the record primitive aborts the whole loop at that point, committing
nothing beyond the store accumulated before the failing line. -/
theorem parse_aborts_at_first_failure :
    (∃ e : ParseError, parse "1 main\n" = .error e ∧ e.line = 1) ∧
    (∀ (fuel : Nat) (store : List (String × FuncBranchData))
        (st : ParserState) (e : ParseError),
      st.buf.isEmpty = false → parseBranchInfo st = .error e →
      branchLoop (fuel + 1) store st = .error e) := by
  refine ⟨⟨⟨1, 7, "malformed field"⟩, by rfl, rfl⟩, ?_⟩
  intro fuel store st e hbuf herr
  simp [branchLoop, hbuf, herr]

theorem parse_aborts_at_first_failure_witness :
    branchLoop 1 [] ⟨"1 main\n".data, 1, 1⟩ =
      .error ⟨1, 7, "malformed field"⟩ :=
  parse_aborts_at_first_failure.2 0 [] ⟨"1 main\n".data, 1, 1⟩
    ⟨1, 7, "malformed field"⟩ (by rfl) (by rfl)

/-- C8: `appendFrom` keeps the receiver's records in place and appends
the source's records — both the `Data` and the `EntryData` sequence —
with both offsets of every appended record shifted by exactly `k` and
the Mispreds and Branches fields unchanged. -/
theorem appendFrom_shifts_offsets (d other : FuncBranchData) (k : Nat) :
    (d.appendFrom other k).Data.length = d.Data.length + other.Data.length ∧
    (∀ j, j < d.Data.length → (d.appendFrom other k).Data[j]? = d.Data[j]?) ∧
    (∀ i, (d.appendFrom other k).Data[d.Data.length + i]? =
      (other.Data[i]?).map (shiftBranchInfo k)) ∧
    (d.appendFrom other k).EntryData.length =
      d.EntryData.length + other.EntryData.length ∧
    (∀ j, j < d.EntryData.length →
      (d.appendFrom other k).EntryData[j]? = d.EntryData[j]?) ∧
    (∀ i, (d.appendFrom other k).EntryData[d.EntryData.length + i]? =
      (other.EntryData[i]?).map (shiftBranchInfo k)) ∧
    (∀ bi, (shiftBranchInfo k bi).From.Offset = bi.From.Offset + k ∧
      (shiftBranchInfo k bi).To.Offset = bi.To.Offset + k ∧
      (shiftBranchInfo k bi).From.IsSymbol = bi.From.IsSymbol ∧
      (shiftBranchInfo k bi).From.Name = bi.From.Name ∧
      (shiftBranchInfo k bi).To.IsSymbol = bi.To.IsSymbol ∧
      (shiftBranchInfo k bi).To.Name = bi.To.Name ∧
      (shiftBranchInfo k bi).Mispreds = bi.Mispreds ∧
      (shiftBranchInfo k bi).Branches = bi.Branches) := by
  refine ⟨by simp [FuncBranchData.appendFrom], ?_, ?_,
    by simp [FuncBranchData.appendFrom], ?_, ?_, ?_⟩
  · intro j hj
    simp [FuncBranchData.appendFrom, List.getElem?_append_left hj]
  · intro i
    rw [FuncBranchData.appendFrom]
    simp only
    rw [List.getElem?_append_right (Nat.le_add_right _ _)]
    simp [List.getElem?_map]
  · intro j hj
    simp [FuncBranchData.appendFrom, List.getElem?_append_left hj]
  · intro i
    rw [FuncBranchData.appendFrom]
    simp only
    rw [List.getElem?_append_right (Nat.le_add_right _ _)]
    simp [List.getElem?_map]
  · intro bi
    simp [shiftBranchInfo]

theorem appendFrom_shifts_offsets_witness :
    (((⟨"p", [⟨⟨true, "p", 0⟩, ⟨true, "p", 4⟩, 0, 2⟩],
        [⟨⟨true, "r", 20⟩, ⟨true, "p", 0⟩, 0, 7⟩], 0, false, []⟩ :
        FuncBranchData).appendFrom
      ⟨"q", [⟨⟨true, "q", 8⟩, ⟨true, "q", 12⟩, 1, 5⟩],
        [⟨⟨true, "s", 24⟩, ⟨true, "q", 8⟩, 1, 9⟩], 0, false, []⟩
      100).Data[0]? =
      ([⟨⟨true, "p", 0⟩, ⟨true, "p", 4⟩, 0, 2⟩] :
        List BranchInfo)[0]?) ∧
    (((⟨"p", [⟨⟨true, "p", 0⟩, ⟨true, "p", 4⟩, 0, 2⟩],
        [⟨⟨true, "r", 20⟩, ⟨true, "p", 0⟩, 0, 7⟩], 0, false, []⟩ :
        FuncBranchData).appendFrom
      ⟨"q", [⟨⟨true, "q", 8⟩, ⟨true, "q", 12⟩, 1, 5⟩],
        [⟨⟨true, "s", 24⟩, ⟨true, "q", 8⟩, 1, 9⟩], 0, false, []⟩
      100).EntryData[0]? =
      ([⟨⟨true, "r", 20⟩, ⟨true, "p", 0⟩, 0, 7⟩] :
        List BranchInfo)[0]?) :=
  ⟨(appendFrom_shifts_offsets
      ⟨"p", [⟨⟨true, "p", 0⟩, ⟨true, "p", 4⟩, 0, 2⟩],
        [⟨⟨true, "r", 20⟩, ⟨true, "p", 0⟩, 0, 7⟩], 0, false, []⟩
      ⟨"q", [⟨⟨true, "q", 8⟩, ⟨true, "q", 12⟩, 1, 5⟩],
        [⟨⟨true, "s", 24⟩, ⟨true, "q", 8⟩, 1, 9⟩], 0, false, []⟩
      100).2.1 0 (by decide),
    (appendFrom_shifts_offsets
      ⟨"p", [⟨⟨true, "p", 0⟩, ⟨true, "p", 4⟩, 0, 2⟩],
        [⟨⟨true, "r", 20⟩, ⟨true, "p", 0⟩, 0, 7⟩], 0, false, []⟩
      ⟨"q", [⟨⟨true, "q", 8⟩, ⟨true, "q", 12⟩, 1, 5⟩],
        [⟨⟨true, "s", 24⟩, ⟨true, "q", 8⟩, 1, 9⟩], 0, false, []⟩
      100).2.2.2.2.1 0 (by decide)⟩

theorem filter_range_nil {l : List SampleInfo} {start stop : Nat}
    (h : ∀ y ∈ l, stop ≤ y.Loc.Offset) :
    l.filter (fun s => decide (start ≤ s.Loc.Offset) &&
      decide (s.Loc.Offset < stop)) = [] := by
  induction l with
  | nil => rfl
  | cons x rest ih =>
    have hx : stop ≤ x.Loc.Offset := h x (List.mem_cons_self _ _)
    have hlt : ¬ x.Loc.Offset < stop := by omega
    simp [List.filter_cons, hlt,
      ih (fun y hy => h y (List.mem_cons_of_mem _ hy))]

theorem getSamples_list (start stop : Nat) (l : List SampleInfo)
    (hs : List.Pairwise (fun a b => a.Loc.Offset ≤ b.Loc.Offset) l) :
    (((l.drop (lowerBound start l)).take
        (lowerBound stop l - lowerBound start l)).map (fun s => s.Hits)).sum =
      ((l.filter (fun s => decide (start ≤ s.Loc.Offset) &&
          decide (s.Loc.Offset < stop))).map (fun s => s.Hits)).sum := by
  induction l with
  | nil => simp [lowerBound]
  | cons x rest ih =>
    obtain ⟨hx, hrest⟩ := List.pairwise_cons.mp hs
    by_cases h1 : x.Loc.Offset < start
    · by_cases h2 : x.Loc.Offset < stop
      · have e1 : lowerBound start (x :: rest) = lowerBound start rest + 1 := by
          simp [lowerBound, h1]
        have e2 : lowerBound stop (x :: rest) = lowerBound stop rest + 1 := by
          simp [lowerBound, h2]
        have hq : ¬ start ≤ x.Loc.Offset := by omega
        rw [e1, e2, List.drop_succ_cons, Nat.add_sub_add_right,
          List.filter_cons]
        simp [hq]
        simpa using ih hrest
      · have e1 : lowerBound start (x :: rest) = lowerBound start rest + 1 := by
          simp [lowerBound, h1]
        have e2 : lowerBound stop (x :: rest) = 0 := by
          simp [lowerBound, h2]
        rw [e1, e2]
        have hall : ∀ y ∈ x :: rest, stop ≤ y.Loc.Offset := by
          intro y hy
          rcases List.mem_cons.mp hy with rfl | hmem
          · omega
          · have := hx y hmem
            omega
        rw [filter_range_nil hall]
        simp
    · by_cases h2 : x.Loc.Offset < stop
      · have e1 : lowerBound start (x :: rest) = 0 := by
          simp [lowerBound, h1]
        have e2 : lowerBound stop (x :: rest) = lowerBound stop rest + 1 := by
          simp [lowerBound, h2]
        have hlbS : lowerBound start rest = 0 := by
          cases rest with
          | nil => rfl
          | cons y ys =>
            have hxy := hx y (List.mem_cons_self _ _)
            have hy : ¬ y.Loc.Offset < start := by omega
            simp [lowerBound, hy]
        have hq : start ≤ x.Loc.Offset := by omega
        have ih' := ih hrest
        rw [hlbS] at ih'
        simp only [List.drop_zero, Nat.sub_zero] at ih'
        rw [e1, e2]
        simp only [List.drop_zero, Nat.sub_zero, List.take_succ_cons,
          List.map_cons, List.sum_cons, List.filter_cons]
        simp [hq, h2]
        simpa using ih'
      · have e1 : lowerBound start (x :: rest) = 0 := by
          simp [lowerBound, h1]
        have e2 : lowerBound stop (x :: rest) = 0 := by
          simp [lowerBound, h2]
        rw [e1, e2]
        have hall : ∀ y ∈ x :: rest, stop ≤ y.Loc.Offset := by
          intro y hy
          rcases List.mem_cons.mp hy with rfl | hmem
          · omega
          · have := hx y hmem
            omega
        rw [filter_range_nil hall]
        simp

/-- C7: on a Data sequence sorted by offset, `getSamples` returns the sum
of the Hits of exactly the entries whose offset lies in the half-open
interval from `start` (inclusive) to `stop` (exclusive). -/
theorem getSamples_sums_halfopen (d : FuncSampleData) (start stop : Nat)
    (hs : List.Pairwise (fun a b => a.Loc.Offset ≤ b.Loc.Offset) d.Data) :
    d.getSamples start stop =
      ((d.Data.filter (fun s => decide (start ≤ s.Loc.Offset) &&
          decide (s.Loc.Offset < stop))).map (fun s => s.Hits)).sum := by
  unfold FuncSampleData.getSamples
  exact getSamples_list start stop d.Data hs

theorem getSamples_sums_halfopen_witness :
    (⟨"m", [⟨⟨true, "m", 1⟩, 2⟩, ⟨⟨true, "m", 5⟩, 3⟩, ⟨⟨true, "m", 9⟩, 4⟩]⟩ :
        FuncSampleData).getSamples 2 9 =
      (((⟨"m", [⟨⟨true, "m", 1⟩, 2⟩, ⟨⟨true, "m", 5⟩, 3⟩,
          ⟨⟨true, "m", 9⟩, 4⟩]⟩ : FuncSampleData).Data.filter
        (fun s => decide (2 ≤ s.Loc.Offset) &&
          decide (s.Loc.Offset < 9))).map (fun s => s.Hits)).sum :=
  getSamples_sums_halfopen
    ⟨"m", [⟨⟨true, "m", 1⟩, 2⟩, ⟨⟨true, "m", 5⟩, 3⟩, ⟨⟨true, "m", 9⟩, 4⟩]⟩
    2 9 (by decide)

end BoltData
